import Mathlib

/-!
# AKSFlexNode bootstrap orchestrator: shallow embedding and verification

This file embeds the bootstrap/unbootstrap step orchestrator of the
AKSFlexNode repository and proves properties of it.

The data model (`Step`, `StepResult`, `ExecutionResult`) and the
orchestrator (`ExecuteSteps`) live in `pkg/bootstrapper`.  The executor
implementation file itself is not among the available sources (only its
unit tests in the bootstrapper test file and its callers in
`bootstrapper.go` are), so `ExecuteSteps` below is modelled from the
specification, section 4.1, and is validated against the expectations of
the unit tests (`TestExecuteSteps_Success`, `TestExecuteSteps_BootstrapFailure`,
`TestExecuteSteps_UnbootstrapContinuesOnFailure`,
`TestExecuteSteps_SkipsCompletedSteps`, `TestExecuteSteps_ValidationFailure`).

A step is modelled by the answers it would give to the orchestrator's
calls (mirroring `mockExecutor` / `mockStepExecutor` of the test file):
whether it implements `Validate` (capability set B), the result of
`Validate`, the result of `IsCompleted`, and the result of `Execute`.
The orchestrator additionally produces a trace of `Event`s recording, in
order, every `Validate` / `IsCompleted` / `Execute` call it performs,
so that claims of the form "Execute is never invoked" are statable.
-/

namespace AKSFlexNode

/-- Behaviour of one step, as observed by the orchestrator.  Mirrors the
`Executor` / `StepExecutor` capability sets of the spec (section 3) and the
`mockExecutor` / `mockStepExecutor` records of the bootstrapper test file:
`hasValidate` says whether the step implements capability set B,
`validateErr` is what `Validate(ctx)` returns (`some` = error),
`completed` is what `IsCompleted(ctx)` returns, and
`execErr` is what `Execute(ctx)` returns (`some` = error). -/
structure Step where
  name : String
  hasValidate : Bool
  validateErr : Option String
  completed : Bool
  execErr : Option String
deriving Repr, DecidableEq

/-- `StepResult` record from the spec (section 3): StepName, Success,
Duration, Error.  Time is not modelled, so durations are 0. -/
structure StepResult where
  stepName : String
  success : Bool
  duration : Nat
  error : String
deriving Repr, DecidableEq

/-- `ExecutionResult` record from the spec (section 3). -/
structure ExecutionResult where
  success : Bool
  stepCount : Nat
  duration : Nat
  error : String
  stepResults : List StepResult
deriving Repr, DecidableEq

/-- A call the orchestrator performs on the step at a given list position. -/
inductive Event where
  | validate (i : Nat)
  | isCompleted (i : Nat)
  | execute (i : Nat)
deriving Repr, DecidableEq

/-- The list position of the step an event belongs to. -/
def Event.idx : Event → Nat
  | .validate i => i
  | .isCompleted i => i
  | .execute i => i

/-- The step implements `Validate` and that call returns an error. -/
def Step.validateFails (s : Step) : Bool :=
  s.hasValidate && s.validateErr.isSome

/-- The step would yield a failed `StepResult`: its validation fails, or it
is not completed and its `Execute` returns an error. -/
def Step.failed (s : Step) : Bool :=
  s.validateFails || (!s.completed && s.execErr.isSome)

/-- The calls the orchestrator performs on the step at position `i`,
following the spec (section 4.1): the `Validate` phase (only for capability
set B; a validation error short-circuits the step), then the completion
check, then `Execute` unless the step is already completed. -/
def stepEvents (i : Nat) (s : Step) : List Event :=
  (if s.hasValidate then [Event.validate i] else []) ++
    (if s.validateFails then []
     else Event.isCompleted i :: (if s.completed then [] else [Event.execute i]))

/-- The `StepResult` the step contributes, if any, following the spec
(section 4.1): a validation error immediately produces a failed result; a
completed step is skipped and contributes none; otherwise `Execute`'s
outcome is recorded. -/
def stepOutcome (s : Step) : Option StepResult :=
  if s.validateFails then
    some ⟨s.name, false, 0, s.validateErr.getD ""⟩
  else if s.completed then
    none
  else
    some ⟨s.name, s.execErr.isNone, 0, s.execErr.getD ""⟩

/-- The wrapped error message for a failed step, identifying the step and
the phase that failed (spec, section 4.1: "error wraps step name +
underlying cause"). -/
def stepFailMsg (s : Step) : String :=
  if s.validateFails then
    "step " ++ s.name ++ " validation failed: " ++ s.validateErr.getD ""
  else
    "step " ++ s.name ++ " execution failed: " ++ s.execErr.getD ""

/-- Accumulated outcome of a (partial) run: the call trace, the collected
step results, and the error to be returned to the caller (`none` = nil). -/
structure RunAcc where
  events : List Event
  results : List StepResult
  err : Option String
deriving Repr, DecidableEq

/-- Modelled from the spec: the per-step loop of `BaseExecutor.ExecuteSteps`
(section 4.1), whose implementation file is not among the available
sources.  Processes the steps in order starting at position `i`; under
mode "bootstrap" the first failed step stops the run with a non-nil error
(fail fast); under every other mode all steps are attempted and the
returned error is nil (fail soft). -/
def executeStepsFrom (mode : String) : Nat → List Step → RunAcc
  | _, [] => ⟨[], [], none⟩
  | i, s :: rest =>
    if s.failed ∧ mode = "bootstrap" then
      ⟨stepEvents i s, (stepOutcome s).toList, some (stepFailMsg s)⟩
    else
      ⟨stepEvents i s ++ (executeStepsFrom mode (i + 1) rest).events,
       (stepOutcome s).toList ++ (executeStepsFrom mode (i + 1) rest).results,
       (executeStepsFrom mode (i + 1) rest).err⟩

/-- The full observable outcome of one `ExecuteSteps` call: the
`ExecutionResult`, the returned Go error (`none` = nil), and the trace of
calls performed on the steps. -/
structure RunOutcome where
  result : ExecutionResult
  err : Option String
  events : List Event
deriving Repr, DecidableEq

/-- Modelled from the spec: `BaseExecutor.ExecuteSteps` (section 4.1),
whose implementation file is not among the available sources.  Aggregates
the loop's outcomes: Success iff zero failed StepResults, StepCount =
number of StepResults, Error = the first failure's wrapped message (empty
when none). -/
def ExecuteSteps (mode : String) (steps : List Step) : RunOutcome :=
  let r := executeStepsFrom mode 0 steps
  ⟨{ success := r.results.all (·.success)
     stepCount := r.results.length
     duration := 0
     error := r.err.getD ""
     stepResults := r.results },
   r.err, r.events⟩

/-- From `bootstrapper.go`: `Bootstrapper.Bootstrap` obtains the platform
step list and runs `ExecuteSteps(ctx, steps, "bootstrap")`.  The platform
step list is abstracted as the argument. -/
def Bootstrap (steps : List Step) : RunOutcome :=
  ExecuteSteps "bootstrap" steps

/-- From `bootstrapper.go`: `Bootstrapper.Unbootstrap` obtains the platform
step list and runs `ExecuteSteps(ctx, steps, "unbootstrap")`. -/
def Unbootstrap (steps : List Step) : RunOutcome :=
  ExecuteSteps "unbootstrap" steps

/-- A plain step (capability set A) that executes successfully; mirrors
`mockExecutor{shouldFail: false, isCompleted: false}` of the test file. -/
def okStep (n : String) : Step :=
  ⟨n, false, none, false, none⟩

/-- A plain step whose `Execute` fails with message `e`; mirrors
`mockExecutor{shouldFail: true, isCompleted: false}`. -/
def failStep (n e : String) : Step :=
  ⟨n, false, none, false, some e⟩

/-- A plain step whose `IsCompleted` already returns true; mirrors
`mockExecutor{isCompleted: true}`. -/
def doneStep (n : String) : Step :=
  ⟨n, false, none, true, none⟩

/-- The trace of a run that attempts every step: the concatenation of all
the per-step call blocks, in list order. -/
def allEvents : Nat → List Step → List Event
  | _, [] => []
  | k, s :: rest => stepEvents k s ++ allEvents (k + 1) rest

/-- The results of a run that attempts every step: each step's contribution
in list order (skipped steps contribute nothing). -/
def allOutcomes : List Step → List StepResult
  | [] => []
  | s :: rest => (stepOutcome s).toList ++ allOutcomes rest

/-- After a successful first bootstrap run, each step's IsCompleted becomes
true (already-satisfied steps stay satisfied); this models the step lists
of claim C8 where completion is reached by the first successful Execute. -/
def markCompleted (steps : List Step) : List Step :=
  steps.map fun s => { s with completed := true }

/-! ## CLI command surface

The command constructors' file is not among the available sources; their
observable surface is pinned by the assertions of `commands_test.go` and
`main_test.go`, which require `NewAgentCommand().Use == "agent"`,
`NewUnbootstrapCommand().Use == "unbootstrap"`,
`NewVersionCommand().Use == "version"`, and enumerate exactly these three
commands (`TestAllCommands`, `TestCommandConstructors`). -/

/-- From `commands_test.go` (`TestNewAgentCommand`): the `Use` name of the
command built by `NewAgentCommand`. -/
def NewAgentCommandUse : String := "agent"

/-- From `commands_test.go` (`TestNewUnbootstrapCommand`): the `Use` name
of the command built by `NewUnbootstrapCommand`. -/
def NewUnbootstrapCommandUse : String := "unbootstrap"

/-- From `commands_test.go` (`TestNewVersionCommand`): the `Use` name of
the command built by `NewVersionCommand`. -/
def NewVersionCommandUse : String := "version"

/-- The names of all CLI subcommands, per `TestAllCommands` and
`TestCommandConstructors` (the commands wired up by `main`). -/
def cliCommandUses : List String :=
  [NewAgentCommandUse, NewUnbootstrapCommandUse, NewVersionCommandUse]

/-! ## Services installer completion check -/

/-- From `services_installer.go`, `Installer.IsCompleted`: "always return
false to ensure services are reenabled each time" — constant false, for
every context and host state. -/
def servicesInstallerIsCompleted {Ctx : Type} (_ctx : Ctx) : Bool := false

/-- From `services_installer.go`, `Installer.GetName`. -/
def servicesInstallerName : String := "ServicesEnabled"

/-- The services installer step as the orchestrator observes it: it
implements `Validate` (which always returns nil, per `Installer.Validate`),
its completion check is `servicesInstallerIsCompleted`, and its `Execute`
outcome depends on the host (abstracted as `execErr`). -/
def servicesStep (execErr : Option String) : Step :=
  ⟨servicesInstallerName, true, none, servicesInstallerIsCompleted (), execErr⟩

/-! ## Structural lemmas about the per-step call block -/

/-- Every call in the block of the step at position `i` carries index `i`. -/
lemma stepEvents_idx (i : Nat) (s : Step) : ∀ e ∈ stepEvents i s, e.idx = i := by
  intro e he
  cases hv : s.hasValidate <;> cases hf : s.validateFails <;> cases hc : s.completed <;>
    simp [stepEvents, hv, hf, hc] at he <;>
    rcases he with rfl | rfl | rfl <;> rfl

/-- An `Execute` call occurs in a step's block exactly when the step passes
validation and is not completed (and then it is the block's own index). -/
lemma execute_mem_stepEvents {i j : Nat} {s : Step}
    (h : Event.execute j ∈ stepEvents i s) :
    j = i ∧ s.validateFails = false ∧ s.completed = false := by
  cases hv : s.hasValidate <;> cases hf : s.validateFails <;> cases hc : s.completed <;>
    simp [stepEvents, hv, hf, hc] at h ⊢ <;> exact h

/-- Conversely, a non-completed step that passes validation has an `Execute`
call in its block. -/
lemma execute_mem_stepEvents_of {i : Nat} {s : Step}
    (hf : s.validateFails = false) (hc : s.completed = false) :
    Event.execute i ∈ stepEvents i s := by
  simp [stepEvents, hf, hc]

/-- An `IsCompleted` call occurs in a step's block only when validation did
not fail (and then it is the block's own index). -/
lemma isCompleted_mem_stepEvents {i j : Nat} {s : Step}
    (h : Event.isCompleted j ∈ stepEvents i s) :
    j = i ∧ s.validateFails = false := by
  cases hv : s.hasValidate <;> cases hf : s.validateFails <;> cases hc : s.completed <;>
    simp [stepEvents, hv, hf, hc] at h ⊢ <;> exact h

/-! ## Structural lemmas about the orchestrator loop -/

/-- Every event of a run starting at position `k` over `steps` has an index
in `[k, k + steps.length)`. -/
lemma mem_events_bounds {mode : String} :
    ∀ (steps : List Step) (k : Nat) (e : Event),
      e ∈ (executeStepsFrom mode k steps).events →
      k ≤ e.idx ∧ e.idx < k + steps.length := by
  intro steps
  induction steps with
  | nil =>
    intro k e h
    simp [executeStepsFrom] at h
  | cons s rest ih =>
    intro k e h
    by_cases hcond : s.failed = true ∧ mode = "bootstrap"
    · rw [executeStepsFrom, if_pos hcond] at h
      have hidx := stepEvents_idx k s e h
      simp [hidx]
    · rw [executeStepsFrom, if_neg hcond] at h
      rcases List.mem_append.1 h with h | h
      · have hidx := stepEvents_idx k s e h
        simp [hidx]
      · have := ih (k + 1) e h
        simp only [List.length_cons]
        omega

/-- The trace of a run is sorted by step position: no call on a later step
precedes a call on an earlier step. -/
lemma events_sorted {mode : String} :
    ∀ (steps : List Step) (k : Nat),
      ((executeStepsFrom mode k steps).events).Pairwise (fun a b => a.idx ≤ b.idx) := by
  intro steps
  induction steps with
  | nil =>
    intro k
    simp [executeStepsFrom]
  | cons s rest ih =>
    intro k
    have hblock : (stepEvents k s).Pairwise (fun a b : Event => a.idx ≤ b.idx) :=
      List.pairwise_of_forall_mem_list fun a ha b hb => by
        rw [stepEvents_idx k s a ha, stepEvents_idx k s b hb]
    by_cases hcond : s.failed = true ∧ mode = "bootstrap"
    · rw [executeStepsFrom, if_pos hcond]
      exact hblock
    · rw [executeStepsFrom, if_neg hcond]
      refine List.pairwise_append.2 ⟨hblock, ih (k + 1), ?_⟩
      intro a ha b hb
      have h1 := stepEvents_idx k s a ha
      have h2 := (mem_events_bounds rest (k + 1) b hb).1
      omega

/-- If the run's trace contains an `Execute` call on the step at position
`i`, that step passed validation and its completion check returned false. -/
lemma execute_mem_run {mode : String} :
    ∀ (steps : List Step) (k i : Nat) (h : i < steps.length),
      Event.execute (k + i) ∈ (executeStepsFrom mode k steps).events →
      (steps.get ⟨i, h⟩).validateFails = false ∧ (steps.get ⟨i, h⟩).completed = false := by
  intro steps
  induction steps with
  | nil =>
    intro k i h
    simp at h
  | cons s rest ih =>
    intro k i h hm
    cases i with
    | zero =>
      have hblock : Event.execute (k + 0) ∈ stepEvents k s := by
        by_cases hcond : s.failed = true ∧ mode = "bootstrap"
        · rw [executeStepsFrom, if_pos hcond] at hm
          exact hm
        · rw [executeStepsFrom, if_neg hcond] at hm
          rcases List.mem_append.1 hm with hm | hm
          · exact hm
          · have := (mem_events_bounds rest (k + 1) _ hm).1
            simp [Event.idx] at this
      have := execute_mem_stepEvents hblock
      exact ⟨this.2.1, this.2.2⟩
    | succ i' =>
      by_cases hcond : s.failed = true ∧ mode = "bootstrap"
      · rw [executeStepsFrom, if_pos hcond] at hm
        have := stepEvents_idx k s _ hm
        simp [Event.idx] at this
      · rw [executeStepsFrom, if_neg hcond] at hm
        rcases List.mem_append.1 hm with hm | hm
        · have := stepEvents_idx k s _ hm
          simp [Event.idx] at this
        · have harith : k + (i' + 1) = (k + 1) + i' := by omega
          rw [harith] at hm
          exact ih (k + 1) i' (by simpa using h) hm

/-- If the run's trace contains the completion check of a step whose
`IsCompleted` returns false, it also contains that step's `Execute` call:
a step found incomplete is executed, never skipped. -/
lemma isCompleted_implies_execute {mode : String} :
    ∀ (steps : List Step) (k i : Nat) (h : i < steps.length),
      (steps.get ⟨i, h⟩).completed = false →
      Event.isCompleted (k + i) ∈ (executeStepsFrom mode k steps).events →
      Event.execute (k + i) ∈ (executeStepsFrom mode k steps).events := by
  intro steps
  induction steps with
  | nil =>
    intro k i h
    simp at h
  | cons s rest ih =>
    intro k i h hc hm
    cases i with
    | zero =>
      have hget : (s :: rest).get ⟨0, h⟩ = s := rfl
      rw [hget] at hc
      have hblock : Event.isCompleted (k + 0) ∈ stepEvents k s := by
        by_cases hcond : s.failed = true ∧ mode = "bootstrap"
        · rw [executeStepsFrom, if_pos hcond] at hm
          exact hm
        · rw [executeStepsFrom, if_neg hcond] at hm
          rcases List.mem_append.1 hm with hm | hm
          · exact hm
          · have := (mem_events_bounds rest (k + 1) _ hm).1
            simp [Event.idx] at this
      have hf := (isCompleted_mem_stepEvents hblock).2
      have hexec : Event.execute (k + 0) ∈ stepEvents k s := by
        simpa using execute_mem_stepEvents_of hf hc
      by_cases hcond : s.failed = true ∧ mode = "bootstrap"
      · rw [executeStepsFrom, if_pos hcond]
        exact hexec
      · rw [executeStepsFrom, if_neg hcond]
        exact List.mem_append_left _ hexec
    | succ i' =>
      by_cases hcond : s.failed = true ∧ mode = "bootstrap"
      · rw [executeStepsFrom, if_pos hcond] at hm
        have := stepEvents_idx k s _ hm
        simp [Event.idx] at this
      · rw [executeStepsFrom, if_neg hcond] at hm ⊢
        rcases List.mem_append.1 hm with hm | hm
        · have := stepEvents_idx k s _ hm
          simp [Event.idx] at this
        · have harith : k + (i' + 1) = (k + 1) + i' := by omega
          rw [harith] at hm ⊢
          have hc' : (rest.get ⟨i', by simpa using h⟩).completed = false := by
            simpa using hc
          exact List.mem_append_right _ (ih (k + 1) i' (by simpa using h) hc' hm)

/-- In bootstrap mode the run never proceeds past a failed step: if the step
at position `i` fails, every event of the run has index at most `k + i`. -/
lemma bootstrap_halts :
    ∀ (steps : List Step) (k i : Nat) (h : i < steps.length),
      (steps.get ⟨i, h⟩).failed = true →
      ∀ e ∈ (executeStepsFrom "bootstrap" k steps).events, e.idx ≤ k + i := by
  intro steps
  induction steps with
  | nil =>
    intro k i h
    simp at h
  | cons s rest ih =>
    intro k i h hfail e he
    by_cases hs : s.failed = true
    · rw [executeStepsFrom, if_pos ⟨hs, rfl⟩] at he
      have := stepEvents_idx k s e he
      omega
    · rw [executeStepsFrom, if_neg (fun hc => hs hc.1)] at he
      cases i with
      | zero =>
        have hget : (s :: rest).get ⟨0, h⟩ = s := rfl
        rw [hget] at hfail
        exact absurd hfail hs
      | succ i' =>
        rcases List.mem_append.1 he with he | he
        · have := stepEvents_idx k s e he
          omega
        · have hfail' : (rest.get ⟨i', by simpa using h⟩).failed = true := by
            simpa using hfail
          have := ih (k + 1) i' (by simpa using h) hfail' e he
          omega

/-! ## Aggregation lemmas -/

/-- The wrapped failure message is never the empty string (it always starts
with the step name wrapper). -/
lemma stepFailMsg_ne_empty (s : Step) : stepFailMsg s ≠ "" := by
  unfold stepFailMsg
  split_ifs with h <;>
  · intro hcontra
    have := congrArg String.data hcontra
    simp [String.data_append] at this

/-- The step's contributed results are all successful exactly when the step
did not fail. -/
lemma stepOutcome_success_iff (s : Step) :
    ((stepOutcome s).toList.all (·.success)) = !s.failed := by
  cases hf : s.validateFails <;> cases hc : s.completed <;> cases hx : s.execErr <;>
    simp [stepOutcome, Step.failed, hf, hc, hx]

/-- When no step fails, the run attempts every step and returns a nil
error, under every mode. -/
lemma run_of_no_fail {mode : String} :
    ∀ (steps : List Step) (k : Nat), (∀ s ∈ steps, s.failed = false) →
      executeStepsFrom mode k steps = ⟨allEvents k steps, allOutcomes steps, none⟩ := by
  intro steps
  induction steps with
  | nil =>
    intro k _
    simp [executeStepsFrom, allEvents, allOutcomes]
  | cons s rest ih =>
    intro k h
    have hs : s.failed = false := h s (List.mem_cons_self s rest)
    rw [executeStepsFrom, if_neg (fun hc => by simp [hs] at hc)]
    rw [ih (k + 1) fun t ht => h t (List.mem_cons_of_mem s ht)]
    simp [allEvents, allOutcomes]

/-- Under any mode other than the literal "bootstrap", the run attempts
every step and returns a nil error, regardless of failures. -/
lemma run_lenient {mode : String} (hm : mode ≠ "bootstrap") :
    ∀ (steps : List Step) (k : Nat),
      executeStepsFrom mode k steps = ⟨allEvents k steps, allOutcomes steps, none⟩ := by
  intro steps
  induction steps with
  | nil =>
    intro k
    simp [executeStepsFrom, allEvents, allOutcomes]
  | cons s rest ih =>
    intro k
    rw [executeStepsFrom, if_neg (fun hc => hm hc.2)]
    rw [ih (k + 1)]
    simp [allEvents, allOutcomes]

/-- In bootstrap mode the returned error is nil exactly when no step
failed. -/
lemma boot_err_none_iff :
    ∀ (steps : List Step) (k : Nat),
      ((executeStepsFrom "bootstrap" k steps).err = none) ↔
        (∀ s ∈ steps, s.failed = false) := by
  intro steps
  induction steps with
  | nil =>
    intro k
    simp [executeStepsFrom]
  | cons s rest ih =>
    intro k
    by_cases hs : s.failed = true
    · rw [executeStepsFrom, if_pos ⟨hs, rfl⟩]
      refine iff_of_false (by simp) ?_
      intro hall
      have := hall s (List.mem_cons_self s rest)
      simp [hs] at this
    · have hsf : s.failed = false := by
        simp only [Bool.not_eq_true] at hs
        exact hs
      rw [executeStepsFrom, if_neg (fun hc => hs hc.1)]
      simp [List.forall_mem_cons, hsf, ih (k + 1)]

/-- Every non-nil error the run returns is a non-empty message. -/
lemma err_ne_empty {mode : String} :
    ∀ (steps : List Step) (k : Nat) (m : String),
      (executeStepsFrom mode k steps).err = some m → m ≠ "" := by
  intro steps
  induction steps with
  | nil =>
    intro k m h
    simp [executeStepsFrom] at h
  | cons s rest ih =>
    intro k m h
    by_cases hcond : s.failed = true ∧ mode = "bootstrap"
    · rw [executeStepsFrom, if_pos hcond] at h
      simp at h
      rw [← h]
      exact stepFailMsg_ne_empty s
    · rw [executeStepsFrom, if_neg hcond] at h
      exact ih (k + 1) m h

/-- In bootstrap mode, all collected results are successful exactly when
the returned error is nil. -/
lemma boot_all_iff_err :
    ∀ (steps : List Step) (k : Nat),
      (((executeStepsFrom "bootstrap" k steps).results.all (·.success)) = true) ↔
        ((executeStepsFrom "bootstrap" k steps).err = none) := by
  intro steps
  induction steps with
  | nil =>
    intro k
    simp [executeStepsFrom]
  | cons s rest ih =>
    intro k
    by_cases hs : s.failed = true
    · rw [executeStepsFrom, if_pos ⟨hs, rfl⟩]
      simp [stepOutcome_success_iff, hs]
    · have hsf : s.failed = false := by
        simp only [Bool.not_eq_true] at hs
        exact hs
      rw [executeStepsFrom, if_neg (fun hc => hs hc.1)]
      simp [List.all_append, stepOutcome_success_iff, hsf, ih (k + 1)]

/-- If no step fails, all the results of the full run are successful. -/
lemma allOutcomes_all_success :
    ∀ (steps : List Step), (∀ s ∈ steps, s.failed = false) →
      ((allOutcomes steps).all (·.success)) = true := by
  intro steps
  induction steps with
  | nil =>
    intro _
    simp [allOutcomes]
  | cons s rest ih =>
    intro h
    have hs : s.failed = false := h s (List.mem_cons_self s rest)
    have hr := ih fun t ht => h t (List.mem_cons_of_mem s ht)
    simp [allOutcomes, List.all_append, stepOutcome_success_iff, hs, hr]

/-- A full run over a list containing a step that contributes a result has
at least one result. -/
lemma allOutcomes_length_pos :
    ∀ (steps : List Step) (s : Step), s ∈ steps → (stepOutcome s).isSome = true →
      1 ≤ (allOutcomes steps).length := by
  intro steps
  induction steps with
  | nil =>
    intro s h
    simp at h
  | cons t rest ih =>
    intro s hmem hsome
    rcases List.mem_cons.1 hmem with rfl | hmem
    · cases hx : stepOutcome s with
      | none =>
        rw [hx] at hsome
        simp at hsome
      | some r =>
        simp [allOutcomes, hx]
    · have := ih s hmem hsome
      simp only [allOutcomes, List.length_append]
      omega

/-- A full run contains the `Execute` call of every step that passes
validation and is not completed. -/
lemma allEvents_exec_mem :
    ∀ (steps : List Step) (k i : Nat) (h : i < steps.length),
      (steps.get ⟨i, h⟩).validateFails = false →
      (steps.get ⟨i, h⟩).completed = false →
      Event.execute (k + i) ∈ allEvents k steps := by
  intro steps
  induction steps with
  | nil =>
    intro k i h
    simp at h
  | cons s rest ih =>
    intro k i h hf hc
    cases i with
    | zero =>
      have hget : (s :: rest).get ⟨0, h⟩ = s := rfl
      rw [hget] at hf hc
      exact List.mem_append_left _ (by simpa using execute_mem_stepEvents_of hf hc)
    | succ i' =>
      have harith : k + (i' + 1) = (k + 1) + i' := by omega
      rw [allEvents, harith]
      refine List.mem_append_right _ ?_
      exact ih (k + 1) i' (by simpa using h) (by simpa using hf) (by simpa using hc)

/-- A step that is completed and passes validation contributes no
`StepResult` at all. -/
lemma stepOutcome_none_of_completed {s : Step}
    (hc : s.completed = true) (hf : s.validateFails = false) :
    stepOutcome s = none := by
  simp [stepOutcome, hf, hc]

/-- If every step contributes no result, the full run collects none. -/
lemma allOutcomes_nil :
    ∀ (steps : List Step), (∀ s ∈ steps, stepOutcome s = none) →
      allOutcomes steps = [] := by
  intro steps
  induction steps with
  | nil =>
    intro _
    rfl
  | cons s rest ih =>
    intro h
    have hs := h s (List.mem_cons_self s rest)
    have hr := ih fun t ht => h t (List.mem_cons_of_mem s ht)
    simp [allOutcomes, hs, hr]

/-! ## Projections of the run outcome (definitional) -/

lemma ExecuteSteps_success (mode : String) (steps : List Step) :
    (ExecuteSteps mode steps).result.success =
      ((executeStepsFrom mode 0 steps).results.all (·.success)) := rfl

lemma ExecuteSteps_stepCount (mode : String) (steps : List Step) :
    (ExecuteSteps mode steps).result.stepCount =
      (executeStepsFrom mode 0 steps).results.length := rfl

lemma ExecuteSteps_stepResults (mode : String) (steps : List Step) :
    (ExecuteSteps mode steps).result.stepResults =
      (executeStepsFrom mode 0 steps).results := rfl

lemma ExecuteSteps_error (mode : String) (steps : List Step) :
    (ExecuteSteps mode steps).result.error =
      ((executeStepsFrom mode 0 steps).err).getD "" := rfl

lemma ExecuteSteps_err (mode : String) (steps : List Step) :
    (ExecuteSteps mode steps).err = (executeStepsFrom mode 0 steps).err := rfl

lemma ExecuteSteps_events (mode : String) (steps : List Step) :
    (ExecuteSteps mode steps).events = (executeStepsFrom mode 0 steps).events := rfl

/-! ## Claims -/

/-- C1: in mode "bootstrap", ExecuteSteps stops at the first failed step.
Given steps [A(ok), B(fails), C(ok)], it returns an ExecutionResult with
Success=false and StepCount==2, never invokes C's Execute, and the
returned error is non-nil. -/
theorem C1_bootstrap_fail_fast (a b c e : String) :
    (ExecuteSteps "bootstrap" [okStep a, failStep b e, okStep c]).result.success = false ∧
    (ExecuteSteps "bootstrap" [okStep a, failStep b e, okStep c]).result.stepCount = 2 ∧
    Event.execute 2 ∉ (ExecuteSteps "bootstrap" [okStep a, failStep b e, okStep c]).events ∧
    (ExecuteSteps "bootstrap" [okStep a, failStep b e, okStep c]).err ≠ none := by
  refine ⟨rfl, rfl, ?_, ?_⟩
  · simp [ExecuteSteps, executeStepsFrom, stepEvents, okStep, failStep,
      Step.failed, Step.validateFails]
  · simp [ExecuteSteps, executeStepsFrom, okStep, failStep,
      Step.failed, Step.validateFails]

/-- C1 witness: the concrete scenario of the bootstrap-failure unit test. -/
theorem C1_bootstrap_fail_fast_witness :
    (ExecuteSteps "bootstrap"
      [okStep "step1", failStep "step2" "mock execution error", okStep "step3"]).result.success
        = false ∧
    (ExecuteSteps "bootstrap"
      [okStep "step1", failStep "step2" "mock execution error", okStep "step3"]).result.stepCount
        = 2 ∧
    Event.execute 2 ∉ (ExecuteSteps "bootstrap"
      [okStep "step1", failStep "step2" "mock execution error", okStep "step3"]).events ∧
    (ExecuteSteps "bootstrap"
      [okStep "step1", failStep "step2" "mock execution error", okStep "step3"]).err ≠ none :=
  C1_bootstrap_fail_fast "step1" "step2" "step3" "mock execution error"

/-- C2: in mode "unbootstrap", ExecuteSteps attempts every step regardless
of prior failures and returns a nil error.  Given steps
[A(ok), B(fails), C(ok)], it returns error==nil, Success=false,
StepCount==3, and all three steps' Execute are invoked. -/
theorem C2_unbootstrap_fail_soft (a b c e : String) :
    (ExecuteSteps "unbootstrap" [okStep a, failStep b e, okStep c]).err = none ∧
    (ExecuteSteps "unbootstrap" [okStep a, failStep b e, okStep c]).result.success = false ∧
    (ExecuteSteps "unbootstrap" [okStep a, failStep b e, okStep c]).result.stepCount = 3 ∧
    Event.execute 0 ∈ (ExecuteSteps "unbootstrap" [okStep a, failStep b e, okStep c]).events ∧
    Event.execute 1 ∈ (ExecuteSteps "unbootstrap" [okStep a, failStep b e, okStep c]).events ∧
    Event.execute 2 ∈ (ExecuteSteps "unbootstrap" [okStep a, failStep b e, okStep c]).events := by
  refine ⟨rfl, rfl, rfl, ?_, ?_, ?_⟩ <;>
    simp [ExecuteSteps, executeStepsFrom, stepEvents, okStep, failStep,
      Step.failed, Step.validateFails]

/-- C2 witness: the concrete scenario of the unbootstrap-continues test. -/
theorem C2_unbootstrap_fail_soft_witness :
    (ExecuteSteps "unbootstrap"
      [okStep "step1", failStep "step2" "mock execution error", okStep "step3"]).err = none ∧
    (ExecuteSteps "unbootstrap"
      [okStep "step1", failStep "step2" "mock execution error", okStep "step3"]).result.success
        = false ∧
    (ExecuteSteps "unbootstrap"
      [okStep "step1", failStep "step2" "mock execution error", okStep "step3"]).result.stepCount
        = 3 ∧
    Event.execute 0 ∈ (ExecuteSteps "unbootstrap"
      [okStep "step1", failStep "step2" "mock execution error", okStep "step3"]).events ∧
    Event.execute 1 ∈ (ExecuteSteps "unbootstrap"
      [okStep "step1", failStep "step2" "mock execution error", okStep "step3"]).events ∧
    Event.execute 2 ∈ (ExecuteSteps "unbootstrap"
      [okStep "step1", failStep "step2" "mock execution error", okStep "step3"]).events :=
  C2_unbootstrap_fail_soft "step1" "step2" "step3" "mock execution error"

/-- C5: every ExecutionResult returned by ExecuteSteps satisfies
StepCount == len(StepResults), and Success == true iff every element of
StepResults has Success==true; in bootstrap mode additionally
Success == true iff Error == "". -/
theorem C5_aggregation (mode : String) (steps : List Step) :
    (ExecuteSteps mode steps).result.stepCount =
      (ExecuteSteps mode steps).result.stepResults.length ∧
    ((ExecuteSteps mode steps).result.success = true ↔
      ∀ r ∈ (ExecuteSteps mode steps).result.stepResults, r.success = true) ∧
    (mode = "bootstrap" →
      ((ExecuteSteps mode steps).result.success = true ↔
        (ExecuteSteps mode steps).result.error = "")) := by
  refine ⟨rfl, ?_, ?_⟩
  · rw [ExecuteSteps_success, ExecuteSteps_stepResults]
    exact List.all_eq_true
  · intro hmode
    subst hmode
    rw [ExecuteSteps_success, ExecuteSteps_error]
    constructor
    · intro hsucc
      rw [(boot_all_iff_err steps 0).1 hsucc]
      rfl
    · intro herr0
      apply (boot_all_iff_err steps 0).2
      cases hx : (executeStepsFrom "bootstrap" 0 steps).err with
      | none => rfl
      | some m =>
        rw [hx] at herr0
        exact absurd herr0 (err_ne_empty steps 0 m hx)

/-- C5 witness: the aggregation invariants on a concrete bootstrap run with
one failed step. -/
theorem C5_aggregation_witness :
    (ExecuteSteps "bootstrap" [okStep "a", failStep "b" "boom"]).result.stepCount =
      (ExecuteSteps "bootstrap" [okStep "a", failStep "b" "boom"]).result.stepResults.length ∧
    ((ExecuteSteps "bootstrap" [okStep "a", failStep "b" "boom"]).result.success = true ↔
      (ExecuteSteps "bootstrap" [okStep "a", failStep "b" "boom"]).result.error = "") :=
  ⟨(C5_aggregation "bootstrap" [okStep "a", failStep "b" "boom"]).1,
   (C5_aggregation "bootstrap" [okStep "a", failStep "b" "boom"]).2.2 rfl⟩

/-- C6: the orchestrator performs every call on step i strictly before any
call on step i+1, for every mode and step list: the trace is sorted by
step position, so continuation past a failure never reorders steps. -/
theorem C6_ordering (mode : String) (steps : List Step) :
    ((ExecuteSteps mode steps).events).Pairwise (fun a b => a.idx ≤ b.idx) := by
  rw [ExecuteSteps_events]
  exact events_sorted steps 0

/-- C6 witness: the ordering of the trace on a concrete unbootstrap run
that continues past a failure. -/
theorem C6_ordering_witness :
    ((ExecuteSteps "unbootstrap" [failStep "x" "e", okStep "y"]).events).Pairwise
      (fun a b => a.idx ≤ b.idx) :=
  C6_ordering "unbootstrap" [failStep "x" "e", okStep "y"]

/-- C3 counterexample: a step whose IsCompleted would return true can still
contribute a failed StepResult, because the Validate phase runs before the
completion check.  The step below is completed, yet the run records a
failed result for it (and the run is not successful). -/
theorem C3_counterexample :
    ((⟨"vdone", true, some "boom", true, none⟩ : Step).completed = true) ∧
    (ExecuteSteps "bootstrap" [⟨"vdone", true, some "boom", true, none⟩]).result.stepResults =
      [⟨"vdone", false, 0, "boom"⟩] ∧
    (ExecuteSteps "bootstrap" [⟨"vdone", true, some "boom", true, none⟩]).result.success = false := by
  exact ⟨rfl, rfl, rfl⟩

/-- C3 (amended): for every step whose IsCompleted returns true, Execute is
never invoked for it in the run; and, provided the step's Validate (if
implemented) does not fail, a completed step contributes no StepResult at
all (in particular no failed one); a run in which every step passes
validation and is either completed or succeeding yields Success=true. -/
theorem C3_skip_correctness :
    (∀ (mode : String) (steps : List Step) (i : Nat) (h : i < steps.length),
        (steps.get ⟨i, h⟩).completed = true →
        Event.execute i ∉ (ExecuteSteps mode steps).events) ∧
    (∀ s : Step, s.completed = true → s.validateFails = false →
        stepOutcome s = none) ∧
    (∀ (mode : String) (steps : List Step),
        (∀ s ∈ steps, s.validateFails = false ∧ (s.completed = true ∨ s.execErr = none)) →
        (ExecuteSteps mode steps).result.success = true) := by
  refine ⟨?_, ?_, ?_⟩
  · intro mode steps i h hc hmem
    rw [ExecuteSteps_events] at hmem
    have hrun := execute_mem_run steps 0 i h (by simpa using hmem)
    rw [hc] at hrun
    simp at hrun
  · intro s hc hf
    exact stepOutcome_none_of_completed hc hf
  · intro mode steps h
    have hnofail : ∀ s ∈ steps, s.failed = false := by
      intro s hs
      obtain ⟨hf, hor⟩ := h s hs
      rcases hor with hc | hx
      · simp [Step.failed, hf, hc]
      · simp [Step.failed, hf, hx]
    rw [ExecuteSteps_success, run_of_no_fail steps 0 hnofail]
    exact allOutcomes_all_success steps hnofail

/-- C3 witness: on a concrete run with a completed first step, its Execute
is absent from the trace, it contributes no result, and the run succeeds. -/
theorem C3_skip_correctness_witness :
    Event.execute 0 ∉ (ExecuteSteps "bootstrap" [doneStep "a", okStep "b"]).events ∧
    stepOutcome (doneStep "a") = none ∧
    (ExecuteSteps "bootstrap" [doneStep "a", okStep "b"]).result.success = true := by
  refine ⟨?_, ?_, ?_⟩
  · exact C3_skip_correctness.1 "bootstrap" [doneStep "a", okStep "b"] 0 (by decide) (by decide)
  · exact C3_skip_correctness.2.1 (doneStep "a") (by decide) (by decide)
  · exact C3_skip_correctness.2.2 "bootstrap" [doneStep "a", okStep "b"] (by decide)

/-- C4: a step whose Validate returns an error never has Execute invoked,
in both modes; and in bootstrap mode a validation failure is treated as a
failed step: the run returns a non-nil error and halts (no call on any
later step). -/
theorem C4_validation_gate :
    (∀ (mode : String) (steps : List Step) (i : Nat) (h : i < steps.length),
        (steps.get ⟨i, h⟩).validateFails = true →
        Event.execute i ∉ (ExecuteSteps mode steps).events) ∧
    (∀ (steps : List Step) (i : Nat) (h : i < steps.length),
        (steps.get ⟨i, h⟩).validateFails = true →
        (ExecuteSteps "bootstrap" steps).err ≠ none ∧
        ∀ e ∈ (ExecuteSteps "bootstrap" steps).events, e.idx ≤ i) := by
  constructor
  · intro mode steps i h hv hmem
    rw [ExecuteSteps_events] at hmem
    have hrun := execute_mem_run steps 0 i h (by simpa using hmem)
    rw [hv] at hrun
    simp at hrun
  · intro steps i h hv
    have hfail : (steps.get ⟨i, h⟩).failed = true := by
      unfold Step.failed
      rw [hv]
      rfl
    constructor
    · rw [ExecuteSteps_err]
      intro hnone
      have hfalse := (boot_err_none_iff steps 0).1 hnone (steps.get ⟨i, h⟩) (steps.get_mem i h)
      rw [hfail] at hfalse
      exact Bool.noConfusion hfalse
    · intro e he
      rw [ExecuteSteps_events] at he
      have := bootstrap_halts steps 0 i h hfail e he
      omega

/-- C4 witness: a concrete validate-failing step is never executed and the
bootstrap run returns a non-nil error. -/
theorem C4_validation_gate_witness :
    Event.execute 0 ∉
      (ExecuteSteps "bootstrap" [(⟨"v", true, some "bad", false, none⟩ : Step)]).events ∧
    (ExecuteSteps "bootstrap" [(⟨"v", true, some "bad", false, none⟩ : Step)]).err ≠ none := by
  refine ⟨?_, ?_⟩
  · exact C4_validation_gate.1 "bootstrap" [⟨"v", true, some "bad", false, none⟩] 0
      (by decide) (by decide)
  · exact (C4_validation_gate.2 [⟨"v", true, some "bad", false, none⟩] 0
      (by decide) (by decide)).1

/-- C7: for every mode string other than the literal "bootstrap", the run
behaves exactly like the unbootstrap (continue-on-error) policy: the whole
outcome equals the unbootstrap outcome, the returned error is nil, and
every step that passes validation and is not completed is executed — a
failed step never prevents later steps from being attempted. -/
theorem C7_default_lenient (mode : String) (steps : List Step)
    (hm : mode ≠ "bootstrap") :
    ExecuteSteps mode steps = ExecuteSteps "unbootstrap" steps ∧
    (ExecuteSteps mode steps).err = none ∧
    (∀ (i : Nat) (h : i < steps.length),
        (steps.get ⟨i, h⟩).validateFails = false →
        (steps.get ⟨i, h⟩).completed = false →
        Event.execute i ∈ (ExecuteSteps mode steps).events) := by
  have hrun := run_lenient hm steps 0
  have hrun2 := run_lenient (by decide : ("unbootstrap" : String) ≠ "bootstrap") steps 0
  refine ⟨?_, ?_, ?_⟩
  · simp [ExecuteSteps, hrun, hrun2]
  · rw [ExecuteSteps_err, hrun]
  · intro i h hf hc
    rw [ExecuteSteps_events, hrun]
    simpa using allEvents_exec_mem steps 0 i h hf hc

/-- C7 witness: under the empty mode string a run with a failing first step
still attempts the second step, equals the unbootstrap run, and returns a
nil error. -/
theorem C7_default_lenient_witness :
    ExecuteSteps "" [failStep "x" "e", okStep "y"] =
      ExecuteSteps "unbootstrap" [failStep "x" "e", okStep "y"] ∧
    (ExecuteSteps "" [failStep "x" "e", okStep "y"]).err = none ∧
    Event.execute 1 ∈ (ExecuteSteps "" [failStep "x" "e", okStep "y"]).events := by
  obtain ⟨h1, h2, h3⟩ :=
    C7_default_lenient "" [failStep "x" "e", okStep "y"] (by decide)
  exact ⟨h1, h2, h3 1 (by decide) (by decide) (by decide)⟩

/-- C8: if a Bootstrap run returns a nil error, then a second Bootstrap
over the same step list — in which every step's IsCompleted has become
true after its first successful Execute — executes no step: it returns
StepCount==0, Success==true, and its trace contains no Execute call. -/
theorem C8_idempotent_rerun (steps : List Step)
    (hfirst : (Bootstrap steps).err = none) :
    (Bootstrap (markCompleted steps)).result.stepCount = 0 ∧
    (Bootstrap (markCompleted steps)).result.success = true ∧
    ∀ i : Nat, Event.execute i ∉ (Bootstrap (markCompleted steps)).events := by
  have hf0 : (executeStepsFrom "bootstrap" 0 steps).err = none := hfirst
  have hnofail : ∀ s ∈ steps, s.failed = false := (boot_err_none_iff steps 0).1 hf0
  have hmark : ∀ t ∈ markCompleted steps, t.failed = false ∧ t.completed = true := by
    intro t ht
    simp only [markCompleted, List.mem_map] at ht
    obtain ⟨s, hs, rfl⟩ := ht
    have hsf := hnofail s hs
    simp only [Step.failed, Bool.or_eq_false_iff] at hsf
    refine ⟨?_, rfl⟩
    simp [Step.failed, Step.validateFails]
    have : s.validateFails = false := hsf.1
    simpa [Step.validateFails] using this
  have hnofail2 : ∀ t ∈ markCompleted steps, t.failed = false := fun t ht => (hmark t ht).1
  have hrun := @run_of_no_fail "bootstrap" (markCompleted steps) 0 hnofail2
  have hout : allOutcomes (markCompleted steps) = [] := by
    apply allOutcomes_nil
    intro t ht
    have hvf : t.validateFails = false := by
      have := (hmark t ht).1
      simp only [Step.failed, Bool.or_eq_false_iff] at this
      exact this.1
    exact stepOutcome_none_of_completed (hmark t ht).2 hvf
  refine ⟨?_, ?_, ?_⟩
  · unfold Bootstrap
    rw [ExecuteSteps_stepCount, hrun, hout]
    rfl
  · unfold Bootstrap
    rw [ExecuteSteps_success, hrun, hout]
    rfl
  · intro i hmem
    have hmem' : Event.execute i ∈
        (executeStepsFrom "bootstrap" 0 (markCompleted steps)).events := hmem
    have hb := mem_events_bounds (markCompleted steps) 0 _ hmem'
    have hlen : i < (markCompleted steps).length := by
      have := hb.2
      simpa [Event.idx] using this
    have hx := execute_mem_run (markCompleted steps) 0 i hlen (by simpa using hmem')
    have hcomp := (hmark _ ((markCompleted steps).get_mem i hlen)).2
    rw [hcomp] at hx
    exact Bool.noConfusion hx.2

/-- C8 witness: a concrete successful run whose completed re-run executes
nothing and succeeds. -/
theorem C8_idempotent_rerun_witness :
    (Bootstrap [okStep "a", okStep "b"]).err = none ∧
    (Bootstrap (markCompleted [okStep "a", okStep "b"])).result.stepCount = 0 ∧
    (Bootstrap (markCompleted [okStep "a", okStep "b"])).result.success = true := by
  have h := C8_idempotent_rerun [okStep "a", okStep "b"] (by decide)
  exact ⟨by decide, h.1, h.2.1⟩

/-- C9 counterexample: no CLI subcommand is named by the literal string
"bootstrap" — the command set is {agent, unbootstrap, version}. -/
theorem C9_counterexample :
    "bootstrap" ∉ cliCommandUses := by
  decide

/-- C9 (amended): the CLI exposes the subcommands "agent", "unbootstrap"
and "version"; the two subcommands that trigger runs are "agent" (the
install direction) and "unbootstrap" — none is named "bootstrap". -/
theorem C9_cli_commands :
    cliCommandUses = ["agent", "unbootstrap", "version"] ∧
    NewUnbootstrapCommandUse = "unbootstrap" ∧
    NewAgentCommandUse = "agent" ∧
    "bootstrap" ∉ cliCommandUses := by
  refine ⟨rfl, rfl, rfl, by decide⟩

/-- C10: the services installer's IsCompleted is constantly false, so the
"ServicesEnabled" step is never skipped: whenever a run checks its
completion it goes on to execute it, and a bootstrap run over a step list
containing it that returns a nil error records at least one executed step
(never an all-skip run). -/
theorem C10_services_never_skipped :
    (∀ (Ctx : Type) (ctx : Ctx), servicesInstallerIsCompleted ctx = false) ∧
    (∀ e : Option String, (servicesStep e).completed = false) ∧
    (∀ (mode : String) (steps : List Step) (e : Option String) (i : Nat)
        (h : i < steps.length),
        steps.get ⟨i, h⟩ = servicesStep e →
        Event.isCompleted i ∈ (ExecuteSteps mode steps).events →
        Event.execute i ∈ (ExecuteSteps mode steps).events) ∧
    (∀ (steps : List Step) (e : Option String), servicesStep e ∈ steps →
        (Bootstrap steps).err = none →
        1 ≤ (Bootstrap steps).result.stepCount) := by
  refine ⟨fun _ _ => rfl, fun _ => rfl, ?_, ?_⟩
  · intro mode steps e i h hget hmem
    rw [ExecuteSteps_events] at hmem ⊢
    have hc : (steps.get ⟨i, h⟩).completed = false := by
      rw [hget]
      rfl
    simpa using isCompleted_implies_execute steps 0 i h hc (by simpa using hmem)
  · intro steps e hmem herr
    have hf0 : (executeStepsFrom "bootstrap" 0 steps).err = none := herr
    have hnofail := (boot_err_none_iff steps 0).1 hf0
    have hrun := @run_of_no_fail "bootstrap" steps 0 hnofail
    unfold Bootstrap
    rw [ExecuteSteps_stepCount, hrun]
    exact allOutcomes_length_pos steps (servicesStep e) hmem rfl

/-- C10 witness: a concrete bootstrap run over the services step checks its
completion, executes it, and records one step. -/
theorem C10_services_never_skipped_witness :
    Event.execute 0 ∈ (ExecuteSteps "bootstrap" [servicesStep none]).events ∧
    1 ≤ (Bootstrap [servicesStep none]).result.stepCount := by
  refine ⟨?_, ?_⟩
  · exact C10_services_never_skipped.2.2.1 "bootstrap" [servicesStep none] none 0
      (by decide) (by decide) (by decide)
  · exact C10_services_never_skipped.2.2.2 [servicesStep none] none
      (by decide) (by decide)

end AKSFlexNode
